import Mathlib

/-!
Verification of the record-correlation index and review-session state machine
of `app.py` (postal-data review tool), against its design specification.

Python strings are modelled as `List Char` (`PyStr`), file bytes as
`List Nat`, and the filesystem as explicit finite data passed to each
function: a lookup `PyStr → Option (List Nat)` from path to raw bytes for
the field reader, and explicit listings for the folder scans.  Machine
integers do not occur (Python ints are unbounded); the cursor is an `Int`
and Python's `%` on ints is `Int.emod` (both are always non-negative for a
positive modulus).
-/

/-- Python `str`: a sequence of unicode code points. -/
abbrev PyStr := List Char

/-- Bytes of a file on disk. -/
abbrev ByteStr := List Nat

/-- The characters removed by Python's `str.strip()` (all code points with
`str.isspace() = True`). -/
def isPySpace (c : Char) : Bool :=
  c == ' ' || c == '\t' || c == '\n' || c == '\r' || c == '\x0b' || c == '\x0c' ||
  (0x1c ≤ c.toNat && c.toNat ≤ 0x1f) || c.toNat == 0x85 || c.toNat == 0xa0 ||
  c.toNat == 0x1680 || (0x2000 ≤ c.toNat && c.toNat ≤ 0x200a) ||
  c.toNat == 0x2028 || c.toNat == 0x2029 || c.toNat == 0x202f ||
  c.toNat == 0x205f || c.toNat == 0x3000

/-- Python `str.strip()`: drop leading and trailing whitespace. -/
def pyStrip (cs : PyStr) : PyStr :=
  ((cs.dropWhile isPySpace).reverse.dropWhile isPySpace).reverse

/-- Python `str.lower()` (restricted to the ASCII case mapping, which covers
every string the program compares: filename extensions and stems are compared
after `.lower()`, and the fixed extension set is ASCII). -/
def pyLower (cs : PyStr) : PyStr := cs.map Char.toLower

/-- Universal-newline translation performed by `open(path, "r")` with the
default `newline=None`: `"\r\n"` and a lone `"\r"` both become `"\n"`. -/
def pyUnivNewlines : PyStr → PyStr
  | [] => []
  | '\r' :: '\n' :: rest => '\n' :: pyUnivNewlines rest
  | '\r' :: rest => '\n' :: pyUnivNewlines rest
  | c :: rest => c :: pyUnivNewlines rest

/-- Python `f.readline()` on the whole (already decoded, newline-translated)
content: the first line, including its terminating `'\n'` when present. -/
def pyReadline (cs : PyStr) : PyStr :=
  let t := pyUnivNewlines cs
  (t.takeWhile (fun c => c != '\n')) ++ (t.dropWhile (fun c => c != '\n')).take 1

/-- `stem(path)` from `app.py`: `os.path.splitext(os.path.basename(path))[0]`.
Files are modelled by their basenames (the program only ever uses the stem of
the basename).  Per CPython `splitext`: split at the last dot, unless every
character before that dot is itself a dot (then the name has no extension). -/
def stem (name : PyStr) : PyStr :=
  match name.reverse.findIdx? (fun c => c == '.') with
  | none => name
  | some rj =>
    let d := name.length - 1 - rj
    if (name.take d).any (fun c => c != '.') then name.take d else name

/-- `IMG_EXTS` from `app.py`. -/
def IMG_EXTS : List PyStr :=
  [".jpg".toList, ".jpeg".toList, ".png".toList,
   ".bmp".toList, ".tif".toList, ".tiff".toList]

/-- `name.lower().endswith(IMG_EXTS)` from `collect_images`. -/
def hasImgExt (name : PyStr) : Bool :=
  IMG_EXTS.any (fun e => e.isSuffixOf (pyLower name))

/-- A UTF-8 continuation byte. -/
def contB (b : Nat) : Bool := 0x80 ≤ b && b ≤ 0xbf

/-- Valid range of the second byte of a three-byte UTF-8 sequence headed by
`b` (excludes overlong encodings and surrogates, as CPython's strict
decoder does). -/
def cont2ok (b b2 : Nat) : Bool :=
  if b == 0xe0 then 0xa0 ≤ b2 && b2 ≤ 0xbf
  else if b == 0xed then 0x80 ≤ b2 && b2 ≤ 0x9f
  else contB b2

/-- Valid range of the second byte of a four-byte UTF-8 sequence headed by
`b` (excludes overlong encodings and code points above `U+10FFFF`). -/
def cont3ok (b b2 : Nat) : Bool :=
  if b == 0xf0 then 0x90 ≤ b2 && b2 ≤ 0xbf
  else if b == 0xf4 then 0x80 ≤ b2 && b2 ≤ 0x8f
  else contB b2

/-- Strict UTF-8 decoding (`encoding="utf-8"`, default errors): `none` models
a raised `UnicodeDecodeError`. -/
def utf8DecodeStrict : ByteStr → Option PyStr
  | [] => some []
  | b :: rest =>
    if b ≤ 0x7f then
      (utf8DecodeStrict rest).map (fun cs => Char.ofNat b :: cs)
    else if 0xc2 ≤ b && b ≤ 0xdf then
      match rest with
      | b2 :: rest2 =>
        if contB b2 then
          (utf8DecodeStrict rest2).map
            (fun cs => Char.ofNat ((b - 0xc0) * 0x40 + (b2 - 0x80)) :: cs)
        else none
      | [] => none
    else if 0xe0 ≤ b && b ≤ 0xef then
      match rest with
      | b2 :: b3 :: rest3 =>
        if cont2ok b b2 && contB b3 then
          (utf8DecodeStrict rest3).map
            (fun cs =>
              Char.ofNat ((b - 0xe0) * 0x1000 + (b2 - 0x80) * 0x40 + (b3 - 0x80)) :: cs)
        else none
      | _ => none
    else if 0xf0 ≤ b && b ≤ 0xf4 then
      match rest with
      | b2 :: b3 :: b4 :: rest4 =>
        if cont3ok b b2 && contB b3 && contB b4 then
          (utf8DecodeStrict rest4).map
            (fun cs =>
              Char.ofNat ((b - 0xf0) * 0x40000 + (b2 - 0x80) * 0x1000 +
                (b3 - 0x80) * 0x40 + (b4 - 0x80)) :: cs)
        else none
      | _ => none
    else none

/-- The UTF-8 byte-order mark. -/
def BOM : ByteStr := [0xef, 0xbb, 0xbf]

/-- `encoding="utf-8-sig"`: strip a leading byte-order mark if present, then
decode strictly. -/
def utf8DecodeSig (bs : ByteStr) : Option PyStr :=
  utf8DecodeStrict (if BOM.isPrefixOf bs then bs.drop 3 else bs)

/-- `encoding="utf-8", errors="ignore"`: decode, dropping invalid sequences
instead of failing.  Total by construction.  (On an invalid sequence CPython
skips the maximal valid subpart, which this follows; the exact bytes skipped
do not matter to any property below, only totality does.) -/
def utf8DecodeIgnore : ByteStr → PyStr
  | [] => []
  | b :: rest =>
    if b ≤ 0x7f then Char.ofNat b :: utf8DecodeIgnore rest
    else if 0xc2 ≤ b && b ≤ 0xdf then
      match rest with
      | b2 :: rest2 =>
        if contB b2 then
          Char.ofNat ((b - 0xc0) * 0x40 + (b2 - 0x80)) :: utf8DecodeIgnore rest2
        else utf8DecodeIgnore (b2 :: rest2)
      | [] => []
    else if 0xe0 ≤ b && b ≤ 0xef then
      match rest with
      | b2 :: rest2 =>
        if cont2ok b b2 then
          match rest2 with
          | b3 :: rest3 =>
            if contB b3 then
              Char.ofNat ((b - 0xe0) * 0x1000 + (b2 - 0x80) * 0x40 + (b3 - 0x80)) ::
                utf8DecodeIgnore rest3
            else utf8DecodeIgnore (b3 :: rest3)
          | [] => []
        else utf8DecodeIgnore (b2 :: rest2)
      | [] => []
    else if 0xf0 ≤ b && b ≤ 0xf4 then
      match rest with
      | b2 :: rest2 =>
        if cont3ok b b2 then
          match rest2 with
          | b3 :: rest3 =>
            if contB b3 then
              match rest3 with
              | b4 :: rest4 =>
                if contB b4 then
                  Char.ofNat ((b - 0xf0) * 0x40000 + (b2 - 0x80) * 0x1000 +
                    (b3 - 0x80) * 0x40 + (b4 - 0x80)) :: utf8DecodeIgnore rest4
                else utf8DecodeIgnore (b4 :: rest4)
              | [] => []
            else utf8DecodeIgnore (b3 :: rest3)
          | [] => []
        else utf8DecodeIgnore (b2 :: rest2)
      | [] => []
    else utf8DecodeIgnore rest
termination_by bs => bs.length
decreasing_by all_goals (simp [List.length]; try omega)

/-- The three-tier decode cascade of `read_text_first_line` / `read_text_all`:
strict UTF-8, then UTF-8 tolerating a byte-order mark, then UTF-8 dropping
invalid bytes.  Total. -/
def decodeCascade (bs : ByteStr) : PyStr :=
  match utf8DecodeStrict bs with
  | some s => s
  | none =>
    match utf8DecodeSig bs with
    | some s => s
    | none => utf8DecodeIgnore bs

/-- The sentinel returned for a missing/blank field. -/
def SENTINEL : PyStr := ['_']

/-- `read_text_first_line(path)` from `app.py`.  The filesystem is the map
`fs` from path to raw bytes (`none` = `os.path.isfile` is false); `path =
none` is Python `None` and the empty string is also falsy (`not path`).
Decoding is the three-tier cascade; the first line of the decoded text is
stripped and replaced by `"_"` when empty. -/
def read_text_first_line (path : Option PyStr) (fs : PyStr → Option ByteStr) : PyStr :=
  match path with
  | none => SENTINEL
  | some p =>
    if p = [] then SENTINEL
    else
      match fs p with
      | none => SENTINEL
      | some bs =>
        let line := pyStrip (pyReadline (decodeCascade bs))
        if line = [] then SENTINEL else line

/-- `read_text_all(path)` from `app.py`: like `read_text_first_line` but
strips the entire decoded content. -/
def read_text_all (path : Option PyStr) (fs : PyStr → Option ByteStr) : PyStr :=
  match path with
  | none => SENTINEL
  | some p =>
    if p = [] then SENTINEL
    else
      match fs p with
      | none => SENTINEL
      | some bs =>
        let content := pyStrip (pyUnivNewlines (decodeCascade bs))
        if content = [] then SENTINEL else content

/-- Exception-explicit view of the decode cascade.  `Except.error` would model
an exception escaping the `try`/`except` ladder: the first two tiers'
exceptions are caught (turning into the next tier), so an error could only
come from the third tier — which is the total `utf8DecodeIgnore`. -/
def decodeCascadeE (bs : ByteStr) : Except Unit PyStr :=
  match utf8DecodeStrict bs with
  | some s => Except.ok s
  | none =>
    match utf8DecodeSig bs with
    | some s => Except.ok s
    | none => Except.ok (utf8DecodeIgnore bs)

/-- Exception-explicit `read_text_first_line`. -/
def read_text_first_lineE (path : Option PyStr) (fs : PyStr → Option ByteStr) :
    Except Unit PyStr :=
  match path with
  | none => Except.ok SENTINEL
  | some p =>
    if p = [] then Except.ok SENTINEL
    else
      match fs p with
      | none => Except.ok SENTINEL
      | some bs =>
        (decodeCascadeE bs).map fun d =>
          let line := pyStrip (pyReadline d)
          if line = [] then SENTINEL else line

/-- Exception-explicit `read_text_all`. -/
def read_text_allE (path : Option PyStr) (fs : PyStr → Option ByteStr) :
    Except Unit PyStr :=
  match path with
  | none => Except.ok SENTINEL
  | some p =>
    if p = [] then Except.ok SENTINEL
    else
      match fs p with
      | none => Except.ok SENTINEL
      | some bs =>
        (decodeCascadeE bs).map fun d =>
          let content := pyStrip (pyUnivNewlines d)
          if content = [] then SENTINEL else content

/-- Lookup in a Python dict modelled as an insertion-ordered association
list. -/
def alLookup (m : List (PyStr × α)) (k : PyStr) : Option α :=
  (m.find? (fun kv => kv.1 == k)).map Prod.snd

/-- `d[k] = v` on a Python dict: overwrite in place if the key is present,
else append. -/
def alInsert (m : List (PyStr × α)) (k : PyStr) (v : α) : List (PyStr × α) :=
  if m.any (fun kv => kv.1 == k) then
    m.map (fun kv => if kv.1 == k then (k, v) else kv)
  else m ++ [(k, v)]

/-- The per-record judgment stored by the save action: the dict
`{"label": ..., "explanation": ...}` from `app.py`. -/
structure Annot where
  label : PyStr
  explanation : PyStr
deriving DecidableEq

/-- One entry of the index built by `build_index`. -/
structure Entry where
  key : PyStr
  image : Option PyStr
  postcode_img : Option PyStr
  receiver_img : Option PyStr
  postcode_txt : Option PyStr
  words_txt : Option PyStr
  region_txt : Option PyStr
deriving DecidableEq

/-- The session state dict from `app.py`: entries, their count `n`, the
cursor `i`, and the annotations dict. -/
structure Session where
  entries : List Entry
  n : Nat
  i : Int
  annotations : List (PyStr × Annot)
deriving DecidableEq

/-- `collect_images(images_dir)` from `app.py`: fold over the files of the
reference folder in traversal order (each given by its basename; the
`os.path.isfile` test holds for all of them), keeping those with an image
extension and mapping lowercased stem to the file — last write wins. -/
def collect_images (files : List PyStr) : List (PyStr × PyStr) :=
  files.foldl
    (fun m name =>
      if hasImgExt name then alInsert m (pyLower (stem name)) name else m)
    []

/-- `find_by_stem_case_insensitive(folder, base)` from `app.py`: first file
of the folder listing whose stem matches `base` case-insensitively.  (The
code scans direct children first and then walks recursively; `files` is that
combined visiting order.) -/
def find_by_stem_case_insensitive (files : List PyStr) (base : PyStr) : Option PyStr :=
  files.find? (fun name => pyLower (stem name) == pyLower base)

/-- Lexicographic-by-code-point comparison on strings, as Python `sorted`
uses. -/
def pyStrLe : PyStr → PyStr → Bool
  | [], _ => true
  | _ :: _, [] => false
  | x :: xs, y :: ys => if x < y then true else if y < x then false else pyStrLe xs ys

/-- Python list indexing `l[i]` (negative indices count from the end);
`none` models a raised `IndexError`. -/
def pyGet (l : List α) (i : Int) : Option α :=
  if 0 ≤ i then l.get? i.toNat
  else if 0 ≤ i + l.length then l.get? (i + l.length).toNat else none

/-- The loop body of `build_index` for one lowercased key: resolve the
primary image from the map (the display key keeps the original-case stem),
the two crops by case-insensitive stem match, and the three text artifacts
by exact filename pattern plus existence test. -/
def mkIndexEntry (image_map : List (PyStr × PyStr)) (pcFiles rcFiles : List PyStr)
    (pcodeExists wordsExists regionExists : PyStr → Bool) (k_low : PyStr) : Entry :=
  let k_path := alLookup image_map k_low
  let k := match k_path with
    | some p => stem p
    | none => k_low
  { key := k
    image := k_path
    postcode_img := find_by_stem_case_insensitive pcFiles k
    receiver_img := find_by_stem_case_insensitive rcFiles k
    postcode_txt :=
      (let nm := k ++ "_postcode.txt".toList
       if pcodeExists nm then some nm else none)
    words_txt :=
      (let nm := k ++ "_words.txt".toList
       if wordsExists nm then some nm else none)
    region_txt :=
      (let nm := k ++ "_words_region_by_addr.txt".toList
       if regionExists nm then some nm else none) }

/-- `build_index(root)` from `app.py`.  The six folders are modelled by the
traversal-ordered file listing of the reference folder (`imgFiles`), of the
two crop folders (`pcFiles`, `rcFiles`), and existence predicates for the
three text folders (the code builds each text filename by pattern and tests
`os.path.isfile`). -/
def build_index (imgFiles pcFiles rcFiles : List PyStr)
    (pcodeExists wordsExists regionExists : PyStr → Bool) : Session :=
  let image_map := collect_images imgFiles
  let keys := (image_map.map Prod.fst).mergeSort pyStrLe
  let entries :=
    keys.map (mkIndexEntry image_map pcFiles rcFiles pcodeExists wordsExists regionExists)
  { entries := entries, n := entries.length, i := 0, annotations := [] }

/-- `goto_prev` from `app.py`.  The second component is the "No data."
indicator: `true` means the early no-data return was taken and the state was
not touched. -/
def goto_prev (s : Session) : Session × Bool :=
  if s.n = 0 then (s, true)
  else ({ s with i := (s.i - 1).emod s.n }, false)

/-- `goto_next` from `app.py`; same reading as `goto_prev`. -/
def goto_next (s : Session) : Session × Bool :=
  if s.n = 0 then (s, true)
  else ({ s with i := (s.i + 1).emod s.n }, false)

/-- `goto_key` from `app.py`: on empty data, no-data return; a falsy
(empty) key skips the scan; otherwise the cursor moves to the first entry
whose display key equals `key` exactly, and stays put when none does. -/
def goto_key (s : Session) (key : PyStr) : Session × Bool :=
  if s.n = 0 then (s, true)
  else if key = [] then (s, false)
  else
    match s.entries.findIdx? (fun e => e.key == key) with
    | some idx => ({ s with i := (idx : Int) }, false)
    | none => (s, false)

/-- `save_annotation` from `app.py`.  The `Bool` is the reported outcome
(`false` = the "Cannot save" message, `true` = the saved message); the outer
`none` models an uncaught `IndexError` from `state["entries"][state["i"]]`
(reachable only with a cursor outside Python's indexing range). -/
def save_annotation (s : Session) (label explanation : PyStr) :
    Option (Session × Bool) :=
  if s.n = 0 || label = [] then some (s, false)
  else
    match pyGet s.entries s.i with
    | none => none
    | some e =>
      some
        ({ s with
            annotations :=
              alInsert s.annotations e.key
                { label := label
                  explanation := if label = "Wrong".toList then explanation else [] } },
          true)

/-- The CSV data row `export_csv` writes for one entry: the stored label and
explanation when the key is annotated, else the literal `"Not Annotated"`
with an empty explanation. -/
def csvRow (annots : List (PyStr × Annot)) (e : Entry) : List PyStr :=
  match alLookup annots e.key with
  | some a => [e.key, a.label, a.explanation]
  | none => [e.key, "Not Annotated".toList, []]

/-- `export_csv` from `app.py`, as the rows written to the CSV file:
`none` models the early return (`gr.update(value=None)`, no file written),
taken when the annotations dict is falsy, i.e. empty.  Otherwise the header
row followed by one row per entry in index order. -/
def export_csv (s : Session) : Option (List (List PyStr)) :=
  if s.annotations = [] then none
  else
    some (["image_key".toList, "label".toList, "explanation".toList] ::
      s.entries.map (csvRow s.annotations))

/-- An index entry with only a key, used to instantiate theorems at concrete
sessions. -/
def mkEntry (k : PyStr) : Entry :=
  { key := k, image := none, postcode_img := none, receiver_img := none,
    postcode_txt := none, words_txt := none, region_txt := none }

/-- A concrete session over the given entries: cursor at `0`, no
annotations, `n` as `build_index` sets it. -/
def mkSession (es : List Entry) : Session :=
  { entries := es, n := es.length, i := 0, annotations := [] }

/-- A concrete two-record session with exactly one record annotated, used to
instantiate export theorems. -/
def annotatedSession : Session :=
  { entries := [mkEntry ['a'], mkEntry ['b']], n := 2, i := 0,
    annotations := [(['b'], Annot.mk "Wrong".toList ['w'])] }

theorem pyUnivNewlines_all_ws {cs : PyStr} (h : ∀ c ∈ cs, isPySpace c = true) :
    ∀ c ∈ pyUnivNewlines cs, isPySpace c = true := by
  induction cs using pyUnivNewlines.induct with
  | case1 => intro c hc; simp [pyUnivNewlines] at hc
  | case2 rest ih =>
    intro c hc
    simp only [pyUnivNewlines, List.mem_cons] at hc
    rcases hc with rfl | hc
    · decide
    · exact ih (fun d hd => h d (by simp [hd])) c hc
  | case3 rest h2 ih =>
    intro c hc
    simp only [pyUnivNewlines, List.mem_cons] at hc
    rcases hc with rfl | hc
    · decide
    · exact ih (fun d hd => h d (by simp [hd])) c hc
  | case4 c0 rest h1 h2 ih =>
    intro c hc
    simp only [pyUnivNewlines, List.mem_cons] at hc
    rcases hc with rfl | hc
    · exact h c (by simp)
    · exact ih (fun d hd => h d (by simp [hd])) c hc

theorem pyStrip_eq_nil_of_all_ws {cs : PyStr} (h : ∀ c ∈ cs, isPySpace c = true) :
    pyStrip cs = [] := by
  unfold pyStrip
  rw [List.dropWhile_eq_nil_iff.mpr h]
  rfl

theorem pyReadline_all_ws {cs : PyStr} (h : ∀ c ∈ cs, isPySpace c = true) :
    ∀ c ∈ pyReadline cs, isPySpace c = true := by
  intro c hc
  have ht := pyUnivNewlines_all_ws h
  unfold pyReadline at hc
  rcases List.mem_append.mp hc with hm | hm
  · exact ht c ((List.takeWhile_sublist _).subset hm)
  · exact ht c ((List.dropWhile_sublist _).subset ((List.take_sublist _ _).subset hm))

/-- C5: both readers return the sentinel `"_"` when the path is `None` (or
falsy), when the file does not exist, and when the decoded content of an
existing file is empty or whitespace-only (so that it trims to nothing). -/
theorem read_sentinel_on_missing_or_blank :
    (∀ fs, read_text_first_line none fs = SENTINEL ∧ read_text_all none fs = SENTINEL) ∧
    (∀ p fs, fs p = none →
      read_text_first_line (some p) fs = SENTINEL ∧ read_text_all (some p) fs = SENTINEL) ∧
    (∀ p fs bs, fs p = some bs → (∀ c ∈ decodeCascade bs, isPySpace c = true) →
      read_text_first_line (some p) fs = SENTINEL ∧ read_text_all (some p) fs = SENTINEL) := by
  refine ⟨fun fs => ⟨rfl, rfl⟩, ?_, ?_⟩
  · intro p fs hfs
    by_cases hp : p = [] <;>
      simp [read_text_first_line, read_text_all, hp, hfs]
  · intro p fs bs hfs hws
    have h1 : pyStrip (pyReadline (decodeCascade bs)) = [] :=
      pyStrip_eq_nil_of_all_ws (pyReadline_all_ws hws)
    have h2 : pyStrip (pyUnivNewlines (decodeCascade bs)) = [] :=
      pyStrip_eq_nil_of_all_ws (pyUnivNewlines_all_ws hws)
    by_cases hp : p = [] <;>
      simp [read_text_first_line, read_text_all, hp, hfs, h1, h2]

theorem read_sentinel_on_missing_or_blank_witness :
    ((fun p => if p = ['g'] then some [32, 9, 10] else none) ['g'] = some [32, 9, 10]) ∧
    read_text_first_line (some ['g'])
      (fun p => if p = ['g'] then some [32, 9, 10] else none) = SENTINEL ∧
    read_text_all (some ['g'])
      (fun p => if p = ['g'] then some [32, 9, 10] else none) = SENTINEL := by
  refine ⟨by decide, ?_⟩
  have h := read_sentinel_on_missing_or_blank.2.2 ['g']
    (fun p => if p = ['g'] then some [32, 9, 10] else none) [32, 9, 10]
    (by decide) (by decide)
  exact h

/-- C6: the three-tier decode cascade, and with it both readers, never
raises: the exception-explicit models always return `Except.ok`, agreeing
with the total functions (the first two tiers' failures are caught and fall
through, and the last tier is total). -/
theorem reader_decode_never_raises :
    (∀ bs, decodeCascadeE bs = Except.ok (decodeCascade bs)) ∧
    (∀ path fs, read_text_first_lineE path fs = Except.ok (read_text_first_line path fs)) ∧
    (∀ path fs, read_text_allE path fs = Except.ok (read_text_all path fs)) := by
  have hc : ∀ bs, decodeCascadeE bs = Except.ok (decodeCascade bs) := by
    intro bs
    unfold decodeCascadeE decodeCascade
    cases utf8DecodeStrict bs <;> cases utf8DecodeSig bs <;> rfl
  refine ⟨hc, ?_, ?_⟩ <;> intro path fs <;>
    cases path with
    | none => rfl
    | some p =>
      by_cases hp : p = []
      · simp [read_text_first_lineE, read_text_first_line,
          read_text_allE, read_text_all, hp]
      · cases hfs : fs p with
        | none =>
          simp [read_text_first_lineE, read_text_first_line,
            read_text_allE, read_text_all, hp, hfs]
        | some bs =>
          simp [read_text_first_lineE, read_text_first_line,
            read_text_allE, read_text_all, hp, hfs, hc bs, Except.map]

/-- C10: a file whose first line is whitespace-only but which has real
content on a later line: `read_text_first_line` yields the sentinel `"_"`
while `read_text_all` yields the trimmed full content — so the sentinel from
the first-line reader does not imply the file is absent or blank.  The bytes
are `"  \nhello"`. -/
theorem first_line_blank_readline_vs_readall :
    read_text_first_line (some ['f'])
      (fun p => if p = ['f'] then some [32, 32, 10, 104, 101, 108, 108, 111] else none)
      = SENTINEL ∧
    read_text_all (some ['f'])
      (fun p => if p = ['f'] then some [32, 32, 10, 104, 101, 108, 108, 111] else none)
      = "hello".toList ∧
    pyStrip (decodeCascade [32, 32, 10, 104, 101, 108, 108, 111]) ≠ [] := by
  refine ⟨?_, ?_, ?_⟩ <;> decide


theorem alLookup_cons {α : Type} (a : PyStr × α) (t : List (PyStr × α)) (k : PyStr) :
    alLookup (a :: t) k = if a.1 = k then some a.2 else alLookup t k := by
  unfold alLookup
  cases h : (a.1 == k) with
  | false =>
    rw [List.find?_cons_of_neg _ (by simp [h]), if_neg (by simpa using h)]
  | true =>
    rw [@List.find?_cons_of_pos _ (fun kv => kv.1 == k) a t h, if_pos (by simpa using h)]
    rfl

theorem alLookup_map_ne {α : Type} (m : List (PyStr × α)) (k k' : PyStr) (v : α)
    (h : k' ≠ k) :
    alLookup (m.map (fun kv => if kv.1 == k then (k, v) else kv)) k' = alLookup m k' := by
  induction m with
  | nil => rfl
  | cons a t ih =>
    rw [List.map_cons, alLookup_cons, alLookup_cons]
    by_cases ha : a.1 = k
    · have e1 : (if (a.1 == k) = true then (k, v) else a) = (k, v) := by simp [ha]
      rw [e1, if_neg (fun hc => h hc.symm), if_neg (fun hc => h (ha ▸ hc).symm)]
      exact ih
    · have e1 : (if (a.1 == k) = true then (k, v) else a) = a := by simp [ha]
      rw [e1]
      by_cases ha' : a.1 = k'
      · rw [if_pos ha', if_pos ha']
      · rw [if_neg ha', if_neg ha']
        exact ih

theorem alLookup_map_self {α : Type} (m : List (PyStr × α)) (k : PyStr) (v : α)
    (hmem : k ∈ m.map Prod.fst) :
    alLookup (m.map (fun kv => if kv.1 == k then (k, v) else kv)) k = some v := by
  induction m with
  | nil => simp at hmem
  | cons a t ih =>
    rw [List.map_cons, alLookup_cons]
    by_cases ha : a.1 = k
    · have e1 : (if (a.1 == k) = true then (k, v) else a) = (k, v) := by simp [ha]
      rw [e1, if_pos rfl]
    · have e1 : (if (a.1 == k) = true then (k, v) else a) = a := by simp [ha]
      rw [e1, if_neg ha]
      apply ih
      rcases List.mem_map.mp hmem with ⟨kv, hkv, hfst⟩
      rcases List.mem_cons.mp hkv with rfl | hkv'
      · exact absurd hfst ha
      · exact List.mem_map.mpr ⟨kv, hkv', hfst⟩

theorem alLookup_eq_none_iff {α : Type} (m : List (PyStr × α)) (k : PyStr) :
    alLookup m k = none ↔ k ∉ m.map Prod.fst := by
  induction m with
  | nil => simp [alLookup]
  | cons a t ih =>
    rw [alLookup_cons]
    by_cases ha : a.1 = k
    · rw [if_pos ha, List.map_cons]
      constructor
      · intro hc
        exact Option.noConfusion hc
      · intro hc
        exact absurd (ha ▸ List.mem_cons_self a.1 (t.map Prod.fst)) hc
    · rw [if_neg ha, ih, List.map_cons]
      constructor
      · intro h hc
        rcases List.mem_cons.mp hc with hc | hc
        · exact ha hc.symm
        · exact h hc
      · intro h hc
        exact h (List.mem_cons.mpr (Or.inr hc))

theorem alLookup_alInsert {α : Type} (m : List (PyStr × α)) (k k' : PyStr) (v : α) :
    alLookup (alInsert m k v) k' = if k' = k then some v else alLookup m k' := by
  unfold alInsert
  by_cases hmem : (m.any (fun kv => kv.1 == k)) = true
  · rw [if_pos hmem]
    by_cases hk : k' = k
    · subst hk
      rcases List.any_eq_true.mp hmem with ⟨kv, hkv, hbeq⟩
      rw [if_pos rfl]
      exact alLookup_map_self m k' v (List.mem_map.mpr ⟨kv, hkv, beq_iff_eq.mp hbeq⟩)
    · rw [if_neg hk]
      exact alLookup_map_ne m k k' v hk
  · rw [if_neg hmem]
    unfold alLookup
    rw [List.find?_append]
    by_cases hk : k' = k
    · subst hk
      have hnone : List.find? (fun kv => kv.1 == k') m = none := by
        rw [List.find?_eq_none]
        intro kv hkv hbeq
        exact hmem (List.any_eq_true.mpr ⟨kv, hkv, hbeq⟩)
      rw [hnone, if_pos rfl]
      simp [List.find?]
    · rw [if_neg hk]
      have hone : List.find? (fun kv => kv.1 == k') [(k, v)] = none := by
        rw [List.find?_eq_none]
        intro x hx
        rcases List.mem_singleton.mp hx with rfl
        simp [Ne.symm hk]
      rw [hone, Option.or_none]

/-- C9: a save attempted on an empty session or with a falsy (absent/empty)
label is rejected: reported as a failure ("Cannot save") and the whole
session state — records, cursor and annotations — is returned unchanged. -/
theorem save_rejected_state_unchanged (s : Session) (label expl : PyStr)
    (h : s.n = 0 ∨ label = []) :
    save_annotation s label expl = some (s, false) := by
  rcases h with h | h <;> simp [ save_annotation, h]

theorem save_rejected_state_unchanged_witness :
    save_annotation (mkSession [mkEntry ['a']]) [] ['x'] =
      some (mkSession [mkEntry ['a']], false) :=
  save_rejected_state_unchanged (mkSession [mkEntry ['a']]) [] ['x'] (Or.inr rfl)

/-- C2: on an active session (a record under the cursor), saving with label
`Wrong` stores the passed explanation verbatim under the current record's
key; saving with label `Correct` stores an empty explanation no matter what
explanation was passed. -/
theorem save_explanation_policy (s : Session) (expl : PyStr) (e : Entry)
    (hn : s.n ≠ 0) (he : pyGet s.entries s.i = some e) :
    ( save_annotation s "Wrong".toList expl =
        some ({ s with annotations := alInsert s.annotations e.key (Annot.mk "Wrong".toList expl) }, true) ∧
      alLookup (alInsert s.annotations e.key (Annot.mk "Wrong".toList expl)) e.key =
        some (Annot.mk "Wrong".toList expl)) ∧
    ( save_annotation s "Correct".toList expl =
        some ({ s with annotations := alInsert s.annotations e.key (Annot.mk "Correct".toList []) }, true) ∧
      alLookup (alInsert s.annotations e.key (Annot.mk "Correct".toList [])) e.key =
        some (Annot.mk "Correct".toList [])) := by
  have hw : ("Wrong".toList : PyStr) ≠ [] := by decide
  have hc : ("Correct".toList : PyStr) ≠ [] := by decide
  have hcw : ¬(("Correct".toList : PyStr) = "Wrong".toList) := by decide
  refine ⟨⟨?_, ?_⟩, ⟨?_, ?_⟩⟩
  · simp [ save_annotation, hn, hw, he]
  · rw [alLookup_alInsert, if_pos rfl]
  · simp [ save_annotation, hn, hc, he, hcw]
  · rw [alLookup_alInsert, if_pos rfl]

theorem save_explanation_policy_witness :
    ( save_annotation (mkSession [mkEntry ['a']]) "Wrong".toList ['w'] =
        some ({ mkSession [mkEntry ['a']] with annotations := alInsert (mkSession [mkEntry ['a']]).annotations (mkEntry ['a']).key (Annot.mk "Wrong".toList ['w']) }, true) ∧
      alLookup (alInsert (mkSession [mkEntry ['a']]).annotations (mkEntry ['a']).key (Annot.mk "Wrong".toList ['w'])) (mkEntry ['a']).key =
        some (Annot.mk "Wrong".toList ['w'])) ∧
    ( save_annotation (mkSession [mkEntry ['a']]) "Correct".toList ['w'] =
        some ({ mkSession [mkEntry ['a']] with annotations := alInsert (mkSession [mkEntry ['a']]).annotations (mkEntry ['a']).key (Annot.mk "Correct".toList []) }, true) ∧
      alLookup (alInsert (mkSession [mkEntry ['a']]).annotations (mkEntry ['a']).key (Annot.mk "Correct".toList [])) (mkEntry ['a']).key =
        some (Annot.mk "Correct".toList [])) :=
  save_explanation_policy (mkSession [mkEntry ['a']]) ['w'] (mkEntry ['a'])
    (by decide) (by decide)

theorem emod_cycle_back (i n : Int) (h0 : 0 ≤ i) (h1 : i < n) :
    ((i + 1).emod n - 1).emod n = i ∧ ((i - 1).emod n + 1).emod n = i := by
  constructor
  · have k1 : ((i + 1) % n - 1) % n = i % n := by
      rw [Int.sub_eq_add_neg, Int.emod_add_emod, Int.add_neg_cancel_right]
    calc ((i + 1).emod n - 1).emod n = i % n := k1
      _ = i := Int.emod_eq_of_lt h0 h1
  · have k1 : ((i - 1) % n + 1) % n = i % n := by
      rw [Int.emod_add_emod, Int.sub_add_cancel]
    calc ((i - 1).emod n + 1).emod n = i % n := k1
      _ = i := Int.emod_eq_of_lt h0 h1

/-- C3: on any session with at least one record and a valid cursor,
`goto_next` followed by `goto_prev` (and `goto_prev` followed by
`goto_next`) restores the cursor. -/
theorem next_prev_cyclic_identity (s : Session) (hn : 1 ≤ s.n)
    (h0 : 0 ≤ s.i) (h1 : s.i < (s.n : Int)) :
    (goto_prev (goto_next s).1).1.i = s.i ∧ (goto_next (goto_prev s).1).1.i = s.i := by
  have hn0 : s.n ≠ 0 := by omega
  constructor
  · have h := (emod_cycle_back s.i s.n h0 h1).1
    simp [goto_next, goto_prev, hn0, h]
  · have h := (emod_cycle_back s.i s.n h0 h1).2
    simp [goto_next, goto_prev, hn0, h]

theorem next_prev_cyclic_identity_witness :
    (goto_prev (goto_next (mkSession [mkEntry ['a'], mkEntry ['b']])).1).1.i =
        (mkSession [mkEntry ['a'], mkEntry ['b']]).i ∧
    (goto_next (goto_prev (mkSession [mkEntry ['a'], mkEntry ['b']])).1).1.i =
        (mkSession [mkEntry ['a'], mkEntry ['b']]).i :=
  next_prev_cyclic_identity (mkSession [mkEntry ['a'], mkEntry ['b']])
    (by decide) (by decide) (by decide)

/-- C4: a built session with zero records is in the empty state — every
navigation call is a no-op returning the no-data indicator; with records
present, `0 ≤ cursor < len(records)` holds after every navigation call
(`goto_next`, `goto_prev`, `goto_key`) from any valid cursor. -/
theorem nav_cursor_invariant (s : Session) (hlen : s.n = s.entries.length) :
    (s.entries.length = 0 →
      goto_next s = (s, true) ∧ goto_prev s = (s, true) ∧
      ∀ k, goto_key s k = (s, true)) ∧
    (s.entries.length ≠ 0 → 0 ≤ s.i → s.i < (s.n : Int) →
      (0 ≤ (goto_next s).1.i ∧
        (goto_next s).1.i < ((goto_next s).1.entries.length : Int)) ∧
      (0 ≤ (goto_prev s).1.i ∧
        (goto_prev s).1.i < ((goto_prev s).1.entries.length : Int)) ∧
      ∀ k, 0 ≤ (goto_key s k).1.i ∧
        (goto_key s k).1.i < ((goto_key s k).1.entries.length : Int)) := by
  constructor
  · intro h0
    have hn : s.n = 0 := by rw [hlen, h0]
    exact ⟨by simp [goto_next, hn], by simp [goto_prev, hn],
      fun k => by simp [goto_key, hn]⟩
  · intro h0 hc0 hc1
    have hn : s.n ≠ 0 := by rw [hlen]; exact h0
    have hzI : ((s.n : Int)) ≠ 0 := by exact_mod_cast hn
    have hposI : (0 : Int) < (s.n : Int) := by
      exact_mod_cast Nat.pos_of_ne_zero hn
    refine ⟨⟨?_, ?_⟩, ⟨?_, ?_⟩, fun k => ?_⟩
    · simp only [goto_next, if_neg hn]
      exact Int.emod_nonneg _ hzI
    · simp only [goto_next, if_neg hn]
      rw [← hlen]
      exact Int.emod_lt_of_pos _ hposI
    · simp only [goto_prev, if_neg hn]
      exact Int.emod_nonneg _ hzI
    · simp only [goto_prev, if_neg hn]
      rw [← hlen]
      exact Int.emod_lt_of_pos _ hposI
    · by_cases hk : k = []
      · simp only [goto_key, if_neg hn, if_pos hk]
        refine ⟨hc0, ?_⟩
        rw [← hlen]
        exact hc1
      · cases hidx : s.entries.findIdx? (fun e => e.key == k) with
        | none =>
          simp only [goto_key, if_neg hn, if_neg hk, hidx]
          refine ⟨hc0, ?_⟩
          rw [← hlen]
          exact hc1
        | some idx =>
          have hlt : idx < s.entries.length :=
            (List.findIdx?_eq_some_iff_findIdx_eq.mp hidx).1
          simp only [goto_key, if_neg hn, if_neg hk, hidx]
          refine ⟨Int.natCast_nonneg idx, ?_⟩
          exact_mod_cast hlt

theorem nav_cursor_invariant_witness :
    ((mkSession [mkEntry ['a']]).entries.length = 0 →
      goto_next (mkSession [mkEntry ['a']]) = (mkSession [mkEntry ['a']], true) ∧
      goto_prev (mkSession [mkEntry ['a']]) = (mkSession [mkEntry ['a']], true) ∧
      ∀ k, goto_key (mkSession [mkEntry ['a']]) k = (mkSession [mkEntry ['a']], true)) ∧
    ((mkSession [mkEntry ['a']]).entries.length ≠ 0 →
      0 ≤ (mkSession [mkEntry ['a']]).i →
      (mkSession [mkEntry ['a']]).i < ((mkSession [mkEntry ['a']]).n : Int) →
      (0 ≤ (goto_next (mkSession [mkEntry ['a']])).1.i ∧
        (goto_next (mkSession [mkEntry ['a']])).1.i <
          ((goto_next (mkSession [mkEntry ['a']])).1.entries.length : Int)) ∧
      (0 ≤ (goto_prev (mkSession [mkEntry ['a']])).1.i ∧
        (goto_prev (mkSession [mkEntry ['a']])).1.i <
          ((goto_prev (mkSession [mkEntry ['a']])).1.entries.length : Int)) ∧
      ∀ k, 0 ≤ (goto_key (mkSession [mkEntry ['a']]) k).1.i ∧
        (goto_key (mkSession [mkEntry ['a']]) k).1.i <
          ((goto_key (mkSession [mkEntry ['a']]) k).1.entries.length : Int)) :=
  nav_cursor_invariant (mkSession [mkEntry ['a']]) (by decide)

/-- C8: on an active session whose entries have non-empty display keys,
`goto_key` moves the cursor to the position of the first record whose
display key equals the given key exactly (case-sensitively) when one
exists, and leaves the session unchanged — without error — when no record
matches. -/
theorem goto_key_jump_or_noop (s : Session) (key : PyStr) (hn : s.n ≠ 0)
    (hkeys : ∀ e ∈ s.entries, e.key ≠ []) :
    (∀ idx, s.entries.findIdx? (fun e => e.key == key) = some idx →
      (goto_key s key).1.i = (idx : Int) ∧
      ∃ e, s.entries.get? idx = some e ∧ e.key = key) ∧
    ((∀ e ∈ s.entries, e.key ≠ key) → goto_key s key = (s, false)) := by
  constructor
  · intro idx hidx
    rcases List.findIdx?_eq_some_iff_getElem.mp hidx with ⟨hlt, hp, _⟩
    have hkey : (s.entries.get ⟨idx, hlt⟩).key = key := by
      have := beq_iff_eq.mp hp
      simpa using this
    have hne : key ≠ [] := by
      have hm := hkeys (s.entries.get ⟨idx, hlt⟩) (List.get_mem s.entries idx hlt)
      rw [hkey] at hm
      exact hm
    constructor
    · simp [goto_key, hn, hne, hidx]
    · refine ⟨s.entries.get ⟨idx, hlt⟩, ?_, hkey⟩
      simp [List.getElem?_eq_getElem hlt]
  · intro hno
    have hnone : s.entries.findIdx? (fun e => e.key == key) = none :=
      List.findIdx?_eq_none_iff.mpr (fun e he => by simp [hno e he])
    by_cases hk : key = []
    · simp [goto_key, hn, hk]
    · simp [goto_key, hn, hk, hnone]

theorem goto_key_jump_or_noop_witness :
    (∀ idx,
      (mkSession [mkEntry ['a']]).entries.findIdx? (fun e => e.key == ['a']) = some idx →
      (goto_key (mkSession [mkEntry ['a']]) ['a']).1.i = (idx : Int) ∧
      ∃ e, (mkSession [mkEntry ['a']]).entries.get? idx = some e ∧ e.key = ['a']) ∧
    ((∀ e ∈ (mkSession [mkEntry ['a']]).entries, e.key ≠ ['a']) →
      goto_key (mkSession [mkEntry ['a']]) ['a'] = (mkSession [mkEntry ['a']], false)) :=
  goto_key_jump_or_noop (mkSession [mkEntry ['a']]) ['a'] (by decide) (by decide)

/-- C1 counterexample: a built session with one record and no annotations.
`export_csv` takes the early no-file return (`none`) — zero rows are
produced although the claim requires one data row (and a header) for the
one record. -/
theorem export_skips_unannotated_session :
    export_csv (mkSession [mkEntry ['a']]) = none ∧
    (mkSession [mkEntry ['a']]).entries.length = 1 :=
  ⟨rfl, rfl⟩

/-- C1 (amended): provided the annotation map is non-empty, export produces
the header `image_key,label,explanation` followed by exactly one data row
per record, in session order; a record with no annotation yields the
literal `"Not Annotated"` with an empty explanation, and the row count never
depends on annotation coverage beyond that. -/
theorem export_rows_when_annotations_nonempty (s : Session)
    (h : s.annotations ≠ []) :
    ∃ rows,
      export_csv s =
        some (["image_key".toList, "label".toList, "explanation".toList] :: rows) ∧
      rows.length = s.entries.length ∧
      (∀ i e, s.entries.get? i = some e →
        rows.get? i = some (csvRow s.annotations e)) ∧
      (∀ i e, s.entries.get? i = some e → alLookup s.annotations e.key = none →
        rows.get? i = some [e.key, "Not Annotated".toList, []]) := by
  refine ⟨s.entries.map (csvRow s.annotations), ?_, by simp, ?_, ?_⟩
  · simp [export_csv, h]
  · intro i e he
    rw [List.get?_map, he]
    rfl
  · intro i e he hnone
    rw [List.get?_map, he]
    simp [csvRow, hnone]

theorem export_rows_when_annotations_nonempty_witness :
    ∃ rows,
      export_csv annotatedSession =
        some (["image_key".toList, "label".toList, "explanation".toList] :: rows) ∧
      rows.length = annotatedSession.entries.length ∧
      (∀ i e, annotatedSession.entries.get? i = some e →
        rows.get? i = some (csvRow annotatedSession.annotations e)) ∧
      (∀ i e, annotatedSession.entries.get? i = some e →
        alLookup annotatedSession.annotations e.key = none →
        rows.get? i = some [e.key, "Not Annotated".toList, []]) :=
  export_rows_when_annotations_nonempty annotatedSession (by decide)

theorem collect_step_lookup (m : List (PyStr × PyStr)) (f k : PyStr) :
    alLookup (if hasImgExt f then alInsert m (pyLower (stem f)) f else m) k =
      if (hasImgExt f && (pyLower (stem f) == k)) = true then some f
      else alLookup m k := by
  by_cases hp : (hasImgExt f && (pyLower (stem f) == k)) = true
  · have he : hasImgExt f = true := by
      have := hp
      simp only [Bool.and_eq_true] at this
      exact this.1
    have hkeq : pyLower (stem f) = k := by
      have := hp
      simp only [Bool.and_eq_true, beq_iff_eq] at this
      exact this.2
    rw [if_pos hp, if_pos he, alLookup_alInsert, if_pos hkeq.symm]
  · rw [if_neg hp]
    by_cases he : hasImgExt f = true
    · have hkne : ¬(k = pyLower (stem f)) := by
        intro hc
        exact hp (by simp [he, beq_iff_eq, hc.symm])
      rw [if_pos he, alLookup_alInsert, if_neg hkne]
    · rw [if_neg he]

theorem collect_foldl_lookup (files : List PyStr) (m : List (PyStr × PyStr))
    (k : PyStr) :
    alLookup (files.foldl
      (fun m name =>
        if hasImgExt name then alInsert m (pyLower (stem name)) name else m) m) k =
      (files.reverse.find? (fun g => hasImgExt g && (pyLower (stem g) == k))).or
        (alLookup m k) := by
  induction files generalizing m with
  | nil => simp
  | cons f fs ih =>
    rw [List.foldl_cons, ih, List.reverse_cons, List.find?_append, Option.or_assoc]
    congr 1
    rw [collect_step_lookup, List.find?_singleton]
    by_cases hp : (hasImgExt f && (pyLower (stem f) == k)) = true
    · rw [if_pos hp, if_pos hp]
      rfl
    · rw [if_neg hp, if_neg hp]
      rfl

theorem nodup_keys_alInsert {α : Type} {m : List (PyStr × α)} (k : PyStr) (v : α)
    (h : (m.map Prod.fst).Nodup) : ((alInsert m k v).map Prod.fst).Nodup := by
  unfold alInsert
  by_cases hmem : (m.any (fun kv => kv.1 == k)) = true
  · rw [if_pos hmem, List.map_map]
    have e1 : (m.map (Prod.fst ∘ fun kv => if (kv.1 == k) = true then (k, v) else kv))
        = m.map Prod.fst := by
      apply List.map_congr_left
      intro a _
      by_cases h1 : a.1 = k <;> simp [h1]
    rw [e1]
    exact h
  · rw [if_neg hmem, List.map_append]
    refine List.Nodup.append h (by simp) ?_
    intro a ha hb
    simp only [List.map_cons, List.map_nil, List.mem_singleton] at hb
    subst hb
    rcases List.mem_map.mp ha with ⟨kv, hkv, hfst⟩
    exact hmem (List.any_eq_true.mpr ⟨kv, hkv, by simp [hfst]⟩)

theorem nodup_keys_collect (files : List PyStr) :
    ((collect_images files).map Prod.fst).Nodup := by
  suffices H : ∀ m : List (PyStr × PyStr), (m.map Prod.fst).Nodup →
      ((files.foldl
        (fun m name =>
          if hasImgExt name then alInsert m (pyLower (stem name)) name else m)
        m).map Prod.fst).Nodup by
    exact H [] (by simp)
  induction files with
  | nil => exact fun m h => h
  | cons f fs ih =>
    intro m h
    rw [List.foldl_cons]
    apply ih
    by_cases he : hasImgExt f = true
    · rw [if_pos he]
      exact nodup_keys_alInsert _ _ h
    · rw [if_neg he]
      exact h

theorem collect_images_lookup (files : List PyStr) (k : PyStr) :
    alLookup (collect_images files) k =
      files.reverse.find? (fun g => hasImgExt g && (pyLower (stem g) == k)) := by
  unfold collect_images
  rw [collect_foldl_lookup]
  rw [show alLookup ([] : List (PyStr × PyStr)) k = none from rfl, Option.or_none]

theorem collect_images_lookup_inv (files : List PyStr) (k p : PyStr)
    (h : alLookup (collect_images files) k = some p) :
    hasImgExt p = true ∧ pyLower (stem p) = k := by
  rw [collect_images_lookup] at h
  have h2 := List.find?_some h
  simp only [Bool.and_eq_true, beq_iff_eq] at h2
  exact h2

theorem countP_beq_eq_one_of_nodup_mem {k : PyStr} {l : List PyStr}
    (hnd : l.Nodup) (hm : k ∈ l) : l.countP (fun a => a == k) = 1 := by
  induction l with
  | nil => simp at hm
  | cons a t ih =>
    rw [List.countP_cons]
    rcases List.mem_cons.mp hm with rfl | hmt
    · have hnot : k ∉ t := (List.nodup_cons.mp hnd).1
      have h0 : t.countP (fun a => a == k) = 0 := by
        rw [List.countP_eq_zero]
        intro b hb
        simp only [beq_iff_eq]
        intro hc
        exact hnot (hc ▸ hb)
      simp [h0]
    · have hna : a ∉ t := (List.nodup_cons.mp hnd).1
      have hak : ¬((a == k) = true) := by
        simp only [beq_iff_eq]
        intro hc
        exact hna (hc ▸ hmt)
      rw [ih (List.nodup_cons.mp hnd).2 hmt, if_neg hak]

theorem build_index_entries (imgFiles pcFiles rcFiles : List PyStr)
    (pe we re : PyStr → Bool) :
    (build_index imgFiles pcFiles rcFiles pe we re).entries =
      (((collect_images imgFiles).map Prod.fst).mergeSort pyStrLe).map
        (mkIndexEntry (collect_images imgFiles) pcFiles rcFiles pe we re) := rfl

/-- C7: when two image files in the reference scan share one lowercased
stem, the built index has exactly one record for that stem — never zero,
never two — and the record's image is the last matching file in traversal
order (last write wins). -/
theorem collision_single_record (files pc rc : List PyStr)
    (pe we re : PyStr → Bool) (f1 f2 : PyStr) (k : PyStr)
    (h1 : f1 ∈ files) (h2 : f2 ∈ files) (hne : f1 ≠ f2)
    (he1 : hasImgExt f1 = true) (he2 : hasImgExt f2 = true)
    (hk1 : pyLower (stem f1) = k) (hk2 : pyLower (stem f2) = k) :
    ((build_index files pc rc pe we re).entries.countP
        (fun e => pyLower e.key == k)) = 1 ∧
    ∃ f, files.reverse.find? (fun g => hasImgExt g && (pyLower (stem g) == k)) =
        some f ∧
      ∀ e ∈ (build_index files pc rc pe we re).entries,
        pyLower e.key = k → e.image = some f := by
  have hfind : ∃ x, x ∈ files.reverse ∧ (hasImgExt x && (pyLower (stem x) == k)) = true :=
    ⟨f1, List.mem_reverse.mpr h1, by simp [he1, hk1]⟩
  have hsome : (files.reverse.find?
      (fun g => hasImgExt g && (pyLower (stem g) == k))).isSome :=
    List.find?_isSome.mpr hfind
  obtain ⟨f, hf⟩ := Option.isSome_iff_exists.mp hsome
  have hlk : alLookup (collect_images files) k = some f := by
    rw [collect_images_lookup]
    exact hf
  have hmemkeys : k ∈ (collect_images files).map Prod.fst := by
    by_contra hc
    have h0 := (alLookup_eq_none_iff (collect_images files) k).mpr hc
    rw [h0] at hlk
    exact Option.noConfusion hlk
  have hperm := List.mergeSort_perm ((collect_images files).map Prod.fst) pyStrLe
  have hnd : (((collect_images files).map Prod.fst).mergeSort pyStrLe).Nodup :=
    hperm.nodup_iff.mpr (nodup_keys_collect files)
  have hmemS : k ∈ ((collect_images files).map Prod.fst).mergeSort pyStrLe :=
    hperm.mem_iff.mpr hmemkeys
  have hcount : (((collect_images files).map Prod.fst).mergeSort pyStrLe).countP
      (fun a => a == k) = 1 := countP_beq_eq_one_of_nodup_mem hnd hmemS
  have hkey : ∀ a ∈ ((collect_images files).map Prod.fst).mergeSort pyStrLe,
      ∃ p, alLookup (collect_images files) a = some p ∧ pyLower (stem p) = a := by
    intro a ha
    have haorig : a ∈ (collect_images files).map Prod.fst := hperm.mem_iff.mp ha
    cases hl : alLookup (collect_images files) a with
    | none =>
      rw [alLookup_eq_none_iff] at hl
      exact absurd haorig hl
    | some p =>
      exact ⟨p, rfl, (collect_images_lookup_inv files a p hl).2⟩
  constructor
  · rw [build_index_entries, List.countP_map]
    have hcongr : ∀ a ∈ ((collect_images files).map Prod.fst).mergeSort pyStrLe,
        (((fun e => pyLower e.key == k) ∘
          mkIndexEntry (collect_images files) pc rc pe we re) a = true) ↔
        ((a == k) = true) := by
      intro a ha
      obtain ⟨p, hp, hlow⟩ := hkey a ha
      simp [Function.comp, mkIndexEntry, hp, hlow]
    rw [List.countP_congr hcongr]
    exact hcount
  · refine ⟨f, hf, ?_⟩
    intro e he hek
    rw [build_index_entries] at he
    obtain ⟨a, ha, rfl⟩ := List.mem_map.mp he
    obtain ⟨p, hp, hlow⟩ := hkey a ha
    have hkeyeq : (mkIndexEntry (collect_images files) pc rc pe we re a).key = stem p := by
      simp [mkIndexEntry, hp]
    rw [hkeyeq] at hek
    rw [hlow] at hek
    subst hek
    rw [hp] at hlk
    have hpf := Option.some.inj hlk
    subst hpf
    simp [mkIndexEntry, hp]

theorem collision_single_record_witness :
    ((build_index ["item.png".toList, "ITEM.jpg".toList] [] []
        (fun _ => false) (fun _ => false) (fun _ => false)).entries.countP
        (fun e => pyLower e.key == "item".toList)) = 1 ∧
    ∃ f, (["item.png".toList, "ITEM.jpg".toList] : List PyStr).reverse.find?
        (fun g => hasImgExt g && (pyLower (stem g) == "item".toList)) = some f ∧
      ∀ e ∈ (build_index ["item.png".toList, "ITEM.jpg".toList] [] []
          (fun _ => false) (fun _ => false) (fun _ => false)).entries,
        pyLower e.key = "item".toList → e.image = some f :=
  collision_single_record ["item.png".toList, "ITEM.jpg".toList] [] []
    (fun _ => false) (fun _ => false) (fun _ => false)
    "item.png".toList "ITEM.jpg".toList "item".toList
    (by decide) (by decide) (by decide) (by decide) (by decide) (by decide) (by decide)

theorem stem_ne_nil (name : PyStr) (h : name ≠ []) : stem name ≠ [] := by
  unfold stem
  cases hidx : name.reverse.findIdx? (fun c => c == '.') with
  | none => exact h
  | some rj =>
    simp only []
    by_cases hany :
        ((name.take (name.length - 1 - rj)).any (fun c => c != '.')) = true
    · rw [if_pos hany]
      obtain ⟨x, hx, _⟩ := List.any_eq_true.mp hany
      exact List.ne_nil_of_mem hx
    · rw [if_neg hany]
      exact h

/-- Keys of a built index are never empty strings (filesystem names are
non-empty), which is why `goto_key`'s falsy-key guard never masks a real
match on a built session. -/
theorem build_index_keys_ne_nil (imgFiles pc rc : List PyStr)
    (pe we re : PyStr → Bool) (hne : ∀ f ∈ imgFiles, f ≠ []) :
    ∀ e ∈ (build_index imgFiles pc rc pe we re).entries, e.key ≠ [] := by
  intro e he
  rw [build_index_entries] at he
  obtain ⟨a, ha, rfl⟩ := List.mem_map.mp he
  have hperm := List.mergeSort_perm ((collect_images imgFiles).map Prod.fst) pyStrLe
  have haorig : a ∈ (collect_images imgFiles).map Prod.fst := hperm.mem_iff.mp ha
  cases hl : alLookup (collect_images imgFiles) a with
  | none =>
    rw [alLookup_eq_none_iff] at hl
    exact absurd haorig hl
  | some p =>
    have hkeyeq : (mkIndexEntry (collect_images imgFiles) pc rc pe we re a).key =
        stem p := by
      simp [mkIndexEntry, hl]
    rw [hkeyeq]
    have hmem : p ∈ imgFiles := by
      rw [collect_images_lookup] at hl
      exact List.mem_reverse.mp (List.mem_of_find?_eq_some hl)
    exact stem_ne_nil p (hne p hmem)
